import Mathlib

/-!
Verification of the MorseWriter Morse Timing Decoder & Action Dispatch Engine
(`MorseCodeGUI.py`), shallowly embedded in Lean 4.

The engine lives in the `Window` class: press/release events arrive through
`handle_key_event` into `on_press` / `on_release`; symbols accumulate in
`currentCharacter` (Python ints: `1` for a dit, `2` for a dah); `endCharacter`
finalizes the buffer through `handleMorseCode`, which resolves the rendered
code string against the active layout.  Timers (`endCharacterTimer`,
`fast_morse_mode_timer`, `repeat_character_timer`) are modelled as flags (the
fast-repeat timer keeps the role its press captured); wall-clock instants are
naturals counting milliseconds.
-/

namespace MorseWriter

/-- Input arity, from the `keySelectionRadioOneKey/TwoKey/ThreeKey` radio
buttons read by `on_press` / `on_release`. -/
inductive Mode where
  | one
  | two
  | three
deriving DecidableEq, Repr

/-- The configuration fields the engine reads: `maxDitTime`, `minLetterPause`
(milliseconds) and `fastMorseMode`, plus the selected arity. -/
structure Config where
  mode : Mode
  maxDitTime : Nat
  minLetterPause : Nat
  fastMorseMode : Bool
deriving DecidableEq, Repr

/-- An action bound to a layout entry (`item['_action']`).  The only action
whose `perform` feeds back into the engine state is `RepeatOnAction`
(its callback `enableRepeatMode` sets `repeaton`); every other variant only
has external side effects, so it is kept abstract as a label. -/
inductive ActTag where
  | repeatOn
  | other (label : String)
deriving DecidableEq, Repr

/-- One entry of the active layout: `item['code']` and `item['_action']`
(`set_actions` stores `None` when the action name is unknown). -/
structure LayoutItem where
  code : String
  action : Option ActTag
deriving DecidableEq, Repr

/-- The mutable `Window` fields owned by the engine.  `currentCharacter` and
`previousCharacter` hold the Python int lists (1 = dit, 2 = dah);
`lastKeyDownTime` is the press instant in ms (`None` when no press is open);
the three timers are `endCharacterTimer` (single-shot boundary timer),
`fastTimer` (`fast_morse_mode_timer`; `some role` while running, remembering
the role its starting press captured in the `repeat_key` lambda) and
`repeatTimer` (`repeat_character_timer`). -/
structure EngineState where
  currentCharacter : List Nat
  previousCharacter : List Nat
  lastKeyDownTime : Option Nat
  endCharacterTimer : Bool
  fastTimer : Option Nat
  repeatTimer : Bool
  repeaton : Bool
  inputDisabled : Bool
deriving DecidableEq, Repr

/-- The state `Window.__init__` / `Window.init` produce. -/
def initState : EngineState :=
  { currentCharacter := []
    previousCharacter := []
    lastKeyDownTime := none
    endCharacterTimer := false
    fastTimer := none
    repeatTimer := false
    repeaton := false
    inputDisabled := false }

/-- Observable output of one engine step: `finalized` marks that
`endCharacter` ran, `dispatched a` that `action.perform()` was invoked. -/
inductive Out where
  | finalized
  | dispatched (a : ActTag)
deriving DecidableEq, Repr

/-- `Window.addDit`: `self.currentCharacter.append(1)` (sound and the layout
view are external effects). -/
def addDit (s : EngineState) : EngineState :=
  { s with currentCharacter := s.currentCharacter ++ [1] }

/-- `Window.addDah`: `self.currentCharacter.append(2)`. -/
def addDah (s : EngineState) : EngineState :=
  { s with currentCharacter := s.currentCharacter ++ [2] }

/-- The rendering in `handleMorseCode`:
`morse_code = "".join(str(char) for char in character)` — each buffer element
is a Python int, so a dit renders as `"1"` and a dah as `"2"`. -/
def morse_code_of (character : List Nat) : String :=
  String.join (character.map toString)

/-- `CodeRepresentation.codetocode`: the display-layer conversion
`code.replace('1', '.').replace('2', '-')` — Python `str.replace` with
single-character patterns is exactly a character-by-character map. -/
def codetocode (code : String) : String :=
  String.mk (code.toList.map (fun c =>
    if c = '1' then '.' else if c = '2' then '-' else c))

/-- Modelled from the spec (§3, MorseSymbol): "rendered as '.' / '-' for
table lookup" — the rendering claim C2 attributes to the resolver, kept
separate for comparison with `morse_code_of`. -/
def specRenderDitDah (character : List Nat) : String :=
  String.join (character.map (fun c => if c = 1 then "." else "-"))

/-- The engine-visible effect of `action.perform()`: `RepeatOnAction` calls
`Window.enableRepeatMode`, which sets `self.repeaton = True`; the other
variants do not touch the engine fields. -/
def performTag : ActTag → EngineState → EngineState
  | ActTag.repeatOn, s => { s with repeaton := true }
  | ActTag.other _, s => s

/-- `Window.handleMorseCode`: render the buffer, return early on the empty
string, look up the first item whose `code` equals the rendered string
(`next(...)`), and perform its action when one is attached.  Returns the
updated state and the dispatched action, if any. -/
def handleMorseCode (layout : List LayoutItem) (s : EngineState)
    (character : List Nat) : EngineState × Option ActTag :=
  let code := morse_code_of character
  if code = "" then (s, none)
  else
    match layout.find? (fun it => it.code = code) with
    | some it =>
      match it.action with
      | some a => (performTag a s, some a)
      | none => (s, none)
    | none => (s, none)

/-- `Window.endCharacter`: stop the boundary timer, resolve the buffer via
`handleMorseCode`, then either arm the sticky-repeat timer (when `repeaton`
holds after the dispatch and `previousCharacter` is non-empty) or snapshot
`previousCharacter = currentCharacter`, and finally clear the buffer. -/
def endCharacter (layout : List LayoutItem) (s : EngineState) :
    EngineState × List Out :=
  let s0 := { s with endCharacterTimer := false }
  let r := handleMorseCode layout s0 s0.currentCharacter
  let s1 := r.1
  let s2 :=
    if s1.repeaton then
      if s1.previousCharacter ≠ [] then { s1 with repeatTimer := true } else s1
    else { s1 with previousCharacter := s1.currentCharacter }
  ({ s2 with currentCharacter := [] },
    Out.finalized :: (match r.2 with
      | some a => [Out.dispatched a]
      | none => []))

/-- `Window.repeat_key` — the body of the fast-repeat timer callback,
re-emitting the pressed role's symbol (or finalization for role 2). -/
def repeat_key (layout : List LayoutItem) (role : Nat) (s : EngineState) :
    EngineState × List Out :=
  match role with
  | 0 => (addDit s, [])
  | 1 => (addDah s, [])
  | 2 => endCharacter layout s
  | _ => (s, [])

/-- `Window.on_press`.  It first clears `repeaton` and stops the
sticky-repeat timer, then runs `check_disable_combination(key)`: that method
evaluates `key == 'P' and self.key_state['CTRL'] and self.key_state['SHIFT']`,
and since `Window` never initialises `key_state`, a press of `"P"` raises
`AttributeError`, which `on_press`'s handler swallows (the press is dropped);
for any other key the conjunction short-circuits to `False`.  Next come the
`inputDisabled` guard and the shared debounce guard
(`if self.lastKeyDownTime is not None: return`); past them the press instant
is recorded, the fast-repeat timer is armed when `fastMorseMode` holds
outside OneKey mode, and in multi-key modes the role is classified
immediately (0 → dit, 1 → dah, 2 → `endCharacter`). -/
def on_press (cfg : Config) (layout : List LayoutItem) (key : String)
    (role : Nat) (now : Nat) (s : EngineState) : EngineState × List Out :=
  let s := { s with repeaton := false, repeatTimer := false }
  if key = "P" then (s, [])
  else if s.inputDisabled then (s, [])
  else if s.lastKeyDownTime.isSome then (s, [])
  else
    let s := { s with lastKeyDownTime := some now }
    let s :=
      if cfg.fastMorseMode ∧ cfg.mode ≠ Mode.one then
        { s with fastTimer := some role }
      else s
    if cfg.mode ≠ Mode.one then
      match role with
      | 0 => (addDit s, [])
      | 1 => (addDah s, [])
      | 2 => endCharacter layout s
      | _ => (s, [])
    else (s, [])

/-- `Window.on_release`: stop the fast-repeat timer; when a press is open,
compute `duration = now - pressStart` (ms), clear `lastKeyDownTime`, classify
by duration in OneKey mode (`duration < maxDitTime` → dit, otherwise dah),
and (re)start the boundary timer in OneKey and TwoKey modes. -/
def on_release (cfg : Config) (key : String) (role : Nat) (now : Nat)
    (s : EngineState) : EngineState :=
  let s := { s with fastTimer := none }
  match s.lastKeyDownTime with
  | none => s
  | some t0 =>
    let duration := now - t0
    let s := { s with lastKeyDownTime := none }
    let s :=
      if cfg.mode = Mode.one then
        if duration < cfg.maxDitTime then addDit s else addDah s
      else s
    if cfg.mode = Mode.one ∨ cfg.mode = Mode.two then
      { s with endCharacterTimer := true }
    else s

/-- The events the engine thread processes: role-tagged press/release
notifications (with their arrival instant in ms) and the three timer
callbacks.  A timer callback only has an effect while its timer is running
(`step` guards each tick with the corresponding flag, mirroring Qt timers
that are stopped before they can fire again). -/
inductive Event where
  | press (key : String) (role : Nat) (now : Nat)
  | release (key : String) (role : Nat) (now : Nat)
  | fastTick
  | boundaryFire
  | repeatTick
deriving DecidableEq, Repr

/-- One engine step.  `fastTick` replays `repeat_key` with the role captured
at press time; `boundaryFire` is the `endCharacterTimer` timeout; and
`repeatTick` is the sticky-repeat callback
`lambda: self.handleMorseCode(self.previousCharacter)`. -/
def step (cfg : Config) (layout : List LayoutItem) (s : EngineState) :
    Event → EngineState × List Out
  | Event.press key role now => on_press cfg layout key role now s
  | Event.release key role now => (on_release cfg key role now s, [])
  | Event.fastTick =>
    match s.fastTimer with
    | some role => repeat_key layout role s
    | none => (s, [])
  | Event.boundaryFire =>
    if s.endCharacterTimer then endCharacter layout s else (s, [])
  | Event.repeatTick =>
    if s.repeatTimer then
      let r := handleMorseCode layout s s.previousCharacter
      (r.1, match r.2 with
        | some a => [Out.dispatched a]
        | none => [])
    else (s, [])

/-- Run the engine over a list of events, collecting all outputs. -/
def run (cfg : Config) (layout : List LayoutItem) :
    EngineState → List Event → EngineState × List Out
  | s, [] => (s, [])
  | s, e :: es =>
    let r := step cfg layout s e
    let r' := run cfg layout r.1 es
    (r'.1, r.2 ++ r'.2)

/-! ### ActionDispatcher collaborators: abbreviation expansion (`ActionKeyStroke`)
and prediction selection (`PredictionSelectLayoutAction`).

Python `str` values are modelled as `List Char`; synthesized keystrokes
(`keyboard.press_and_release`) are recorded as a list of key names, each a
`List Char` (a plain character press is the singleton of that character). -/

/-- Python's whitespace test as used by `str.split()` and by the
prediction-boundary check `in [" ", "\n", "\t", "\r"]`. -/
def isWS (c : Char) : Bool :=
  c = ' ' || c = '\n' || c = '\t' || c = '\r'

/-- `keys.split()`: split on whitespace runs, dropping empty pieces. -/
def pyWords : List Char → List Char → List (List Char)
  | [], cur => if cur = [] then [] else [cur.reverse]
  | c :: rest, cur =>
    if isWS c then
      if cur = [] then pyWords rest [] else cur.reverse :: pyWords rest []
    else pyWords rest (c :: cur)

/-- `expand_abbreviation(keys, abbreviations)`: take the last word of
`keys.split()` (raising `IndexError` — the `.error` case — when there is no
word), and return `(abbreviations[last_word], len(last_word))` on a table
hit, `(None, None)` otherwise. -/
def expand_abbreviation (keys : List Char)
    (abbreviations : List (List Char × List Char)) :
    Except Unit (Option (List Char) × Option Nat) :=
  match (pyWords keys []).getLast? with
  | none => Except.error ()
  | some last =>
    match abbreviations.find? (fun p => p.1 = last) with
    | some p => Except.ok (some p.2, some last.length)
    | none => Except.ok (none, none)

/-- The value `TypeState.get_abbreviation` hands back as `expanded_text`:
Python `None`, a matched expansion string, or — on the exception path, where
`self.expanded_text = None, None` binds a tuple — the pair `(None, None)`. -/
inductive AbbrVal where
  | pynone
  | pystr (e : List Char)
  | pypair
deriving DecidableEq, Repr

/-- The `TypeState` fields the keystroke path reads and writes: the text
buffer, the cached `expanded_text`, and `keyLength` (a Python int or `None`;
initialised to `0`). -/
structure TypeStateM where
  text : List Char
  expandedText : AbbrVal
  keyLength : Option Nat
deriving DecidableEq, Repr

/-- `TypeState.__init__`: empty text, `expanded_text = None`, `keyLength = 0`. -/
def initTypeState : TypeStateM :=
  { text := [], expandedText := AbbrVal.pynone, keyLength := some 0 }

/-- `TypeState.get_abbreviation`: run `expand_abbreviation` on the buffer;
on success store and return its pair; when it raises, store
`expanded_text = (None, None)` and leave `keyLength` unchanged. -/
def get_abbreviation (abbreviations : List (List Char × List Char))
    (ts : TypeStateM) : TypeStateM × (AbbrVal × Option Nat) :=
  match expand_abbreviation ts.text abbreviations with
  | Except.ok (some e, n) =>
    ({ ts with expandedText := AbbrVal.pystr e, keyLength := n },
      (AbbrVal.pystr e, n))
  | Except.ok (none, n) =>
    ({ ts with expandedText := AbbrVal.pynone, keyLength := n },
      (AbbrVal.pynone, n))
  | Except.error _ =>
    ({ ts with expandedText := AbbrVal.pypair },
      (AbbrVal.pypair, ts.keyLength))

/-- `n` calls of `TypeState.popchar` (`self.text = self.text[:-1]`). -/
def popN (t : List Char) : Nat → List Char
  | 0 => t
  | n + 1 => popN t.dropLast n

/-- `ActionKeyStroke.perform` for a non-toggle action with a typestate
attached.  It synthesizes the configured key, pops (backspace/delete) or
pushes the resolved character, then asks for an abbreviation:

* `None` — nothing more happens;
* a matched string `e` with `keyLength = n` — `n` times pop + synthesize
  backspace, then synthesize every character of `e` and one `'space'` press;
* the `(None, None)` tuple from the exception path — if the stale
  `keyLength` is an int `n`, `n` pops/backspaces run and then
  `press_and_release(None)` raises `TypeError` (caught by `perform`), so the
  expansion loop and trailing space never happen; a stale `keyLength` of
  `None` makes `range(None)` raise first, so nothing beyond the echo happens.

Pushing a `None` character (`item['character']` absent) raises inside
`pushchar`'s caller and is likewise cut short by `perform`'s handler. -/
def keystroke_perform (abbreviations : List (List Char × List Char))
    (key : List Char) (ch : Option Char) (ts : TypeStateM) :
    TypeStateM × List (List Char) :=
  let echo := [key]
  if key = "backspace".toList ∨ key = "delete".toList then
    let ts := { ts with text := ts.text.dropLast }
    let r := get_abbreviation abbreviations ts
    keystroke_tail r.1 r.2 echo
  else
    match ch with
    | none => (ts, echo)
    | some c =>
      let ts := { ts with text := ts.text ++ [c] }
      let r := get_abbreviation abbreviations ts
      keystroke_tail r.1 r.2 echo
where
  /-- The abbreviation-consuming tail of `perform` (shared by both the
  pop and push branches). -/
  keystroke_tail (ts : TypeStateM) (ab : AbbrVal × Option Nat)
      (echo : List (List Char)) : TypeStateM × List (List Char) :=
    match ab with
    | (AbbrVal.pynone, _) => (ts, echo)
    | (AbbrVal.pystr e, some n) =>
      ({ ts with text := popN ts.text n },
        echo ++ List.replicate n "backspace".toList
          ++ e.map (fun c => [c]) ++ ["space".toList])
    | (AbbrVal.pystr _, none) => (ts, echo)
    | (AbbrVal.pypair, some n) =>
      ({ ts with text := popN ts.text n },
        echo ++ List.replicate n "backspace".toList)
    | (AbbrVal.pypair, none) => (ts, echo)

/-- Process a sequence of (key name, resolved character) keystrokes through
`ActionKeyStroke.perform`, collecting every synthesized key press. -/
def run_keystrokes (abbreviations : List (List Char × List Char)) :
    TypeStateM → List (List Char × Option Char) →
      TypeStateM × List (List Char)
  | ts, [] => (ts, [])
  | ts, (k, c) :: rest =>
    let r := keystroke_perform abbreviations k c ts
    let r' := run_keystrokes abbreviations r.1 rest
    (r'.1, r.2 ++ r'.2)

/-- The loop condition in `PredictionSelectLayoutAction.perform` at loop
index `i`, with `idx = len(text) - i` (a Python int, so the test is
`idx == 0 or (idx > 0 and text[idx-1] in whitespace)`; for `i` beyond
`len(text)` the index is negative and neither disjunct holds). -/
def stripCond (text : List Char) (i : Nat) : Bool :=
  i = text.length ||
    (i < text.length && isWS (text.getD (text.length - i - 1) ' '))

/-- The `for i in range(len(pred))` search: the first `i` (starting at the
given counter, with `fuel` iterations left) satisfying `stripCond`. -/
def strip_search (text : List Char) (i : Nat) : Nat → Option Nat
  | 0 => none
  | fuel + 1 =>
    if stripCond text i then some i else strip_search text (i + 1) fuel

/-- `PredictionSelectLayoutAction.perform`, with the predictive-text
collaborator's state supplied (the shipped program reads the module-level
`typestate`, which is never rebound from `None`, so the whole body is
skipped there; the algorithm below is what runs with a collaborator
attached).  In range, `stripsuffix` is the last `i` characters of the buffer
for the first boundary index found within `len(pred)` steps (else empty);
the buffer becomes `text[:len(text)-len(stripsuffix)] + newchars` with
`newchars = pred[len(stripsuffix):] + " "`, and exactly `newchars` is
synthesized.  Out of range, nothing happens.  Returns (new text,
synthesized characters). -/
def prediction_select_perform (predictions : List (List Char)) (target : Int)
    (text : List Char) : List Char × List Char :=
  if 0 ≤ target ∧ target < (predictions.length : Int) then
    let pred := predictions.getD target.toNat []
    let k := (strip_search text 0 pred.length).getD 0
    let newchars := pred.drop k ++ [' ']
    (text.take (text.length - k) ++ newchars, newchars)
  else (text, [])

/-! ### Helper lemmas -/

/-- `handleMorseCode` either leaves the engine state alone or (when the
dispatched action is `RepeatOnAction`) only sets `repeaton`. -/
theorem handleMorseCode_state (layout : List LayoutItem) (s : EngineState)
    (c : List Nat) :
    (handleMorseCode layout s c).1 = s ∨
      (handleMorseCode layout s c).1 = { s with repeaton := true } := by
  unfold handleMorseCode
  dsimp only
  split
  · exact Or.inl rfl
  · split
    · split
      · rename_i a _
        cases a
        · exact Or.inr rfl
        · exact Or.inl rfl
      · exact Or.inl rfl
    · exact Or.inl rfl

/-- Every engine field except `repeaton` is preserved by `handleMorseCode`. -/
theorem handleMorseCode_preserves (layout : List LayoutItem) (s : EngineState)
    (c : List Nat) :
    (handleMorseCode layout s c).1.currentCharacter = s.currentCharacter
    ∧ (handleMorseCode layout s c).1.previousCharacter = s.previousCharacter
    ∧ (handleMorseCode layout s c).1.endCharacterTimer = s.endCharacterTimer
    ∧ (handleMorseCode layout s c).1.repeatTimer = s.repeatTimer
    ∧ (handleMorseCode layout s c).1.lastKeyDownTime = s.lastKeyDownTime
    ∧ (handleMorseCode layout s c).1.fastTimer = s.fastTimer
    ∧ (handleMorseCode layout s c).1.inputDisabled = s.inputDisabled := by
  rcases handleMorseCode_state layout s c with h | h <;> rw [h] <;>
    exact ⟨rfl, rfl, rfl, rfl, rfl, rfl, rfl⟩

/-- A dispatched action is the action of a layout item whose `code` is the
rendered buffer; with no matching item, nothing is dispatched. -/
theorem handleMorseCode_lookup (layout : List LayoutItem) (s : EngineState)
    (c : List Nat) :
    (∀ a, (handleMorseCode layout s c).2 = some a →
        ∃ it ∈ layout, it.code = morse_code_of c ∧ it.action = some a)
    ∧ ((∀ it ∈ layout, it.code ≠ morse_code_of c) →
        (handleMorseCode layout s c).2 = none) := by
  constructor
  · intro a ha
    unfold handleMorseCode at ha
    dsimp only at ha
    split at ha
    · exact absurd ha (by simp)
    · rcases hfind : layout.find? (fun it => it.code = morse_code_of c) with _ | it
      · rw [hfind] at ha; exact absurd ha (by simp)
      · rw [hfind] at ha
        dsimp only at ha
        refine ⟨it, List.mem_of_find?_eq_some hfind, ?_, ?_⟩
        · have := List.find?_some hfind
          simpa using this
        · rcases hact : it.action with _ | a'
          · rw [hact] at ha
            exact absurd ha (by simp)
          · rw [hact] at ha
            dsimp only at ha
            exact ha
  · intro hmiss
    unfold handleMorseCode
    dsimp only
    split
    · rfl
    · rw [List.find?_eq_none.mpr (fun it hit => by simpa using hmiss it hit)]

/-- When `handleMorseCode` dispatches nothing, the engine state is returned
untouched. -/
theorem handleMorseCode_none_state (layout : List LayoutItem)
    (s : EngineState) (c : List Nat)
    (h : (handleMorseCode layout s c).2 = none) :
    (handleMorseCode layout s c).1 = s := by
  revert h
  unfold handleMorseCode
  dsimp only
  split
  · intro _; rfl
  · split
    · split
      · intro h; exact absurd h (by simp)
      · intro _; rfl
    · intro _; rfl

/-- What `endCharacter` does to the engine fields, in terms of the state
`handleMorseCode` leaves (only `repeaton` can differ from `s` there). -/
theorem endCharacter_fields (layout : List LayoutItem) (s : EngineState) :
    (endCharacter layout s).1.currentCharacter = []
    ∧ (endCharacter layout s).1.endCharacterTimer = false
    ∧ (endCharacter layout s).1.lastKeyDownTime = s.lastKeyDownTime
    ∧ (endCharacter layout s).1.fastTimer = s.fastTimer
    ∧ (endCharacter layout s).1.inputDisabled = s.inputDisabled
    ∧ Out.finalized ∈ (endCharacter layout s).2 := by
  unfold endCharacter
  dsimp only
  have h := handleMorseCode_preserves layout { s with endCharacterTimer := false }
    s.currentCharacter
  split
  · split
    · exact ⟨rfl, h.2.2.1, h.2.2.2.2.1, h.2.2.2.2.2.1, h.2.2.2.2.2.2, by simp⟩
    · exact ⟨rfl, h.2.2.1, h.2.2.2.2.1, h.2.2.2.2.2.1, h.2.2.2.2.2.2, by simp⟩
  · exact ⟨rfl, h.2.2.1, h.2.2.2.2.1, h.2.2.2.2.2.1, h.2.2.2.2.2.2, by simp⟩

/-- If `endCharacter` leaves the sticky-repeat timer running although it was
not running before, then at that finalization the (post-dispatch) repeat
flag was set and the non-empty previous code is still the snapshot. -/
theorem endCharacter_armed_repeat (layout : List LayoutItem) (s : EngineState)
    (h0 : s.repeatTimer = false)
    (h1 : (endCharacter layout s).1.repeatTimer = true) :
    (endCharacter layout s).1.repeaton = true
    ∧ (endCharacter layout s).1.previousCharacter ≠ [] := by
  have hp := handleMorseCode_preserves layout { s with endCharacterTimer := false }
    s.currentCharacter
  revert h1
  unfold endCharacter
  dsimp only
  split
  · rename_i hon
    split
    · rename_i hprev
      intro _
      exact ⟨hon, hprev⟩
    · intro h1
      have h2 : s.repeatTimer = true := by rw [← hp.2.2.2.1]; exact h1
      simp [h0] at h2
  · intro h1
    have h2 : s.repeatTimer = true := by rw [← hp.2.2.2.1]; exact h1
    simp [h0] at h2

/-- `on_release` only touches `fastTimer`, `lastKeyDownTime`,
`currentCharacter` and `endCharacterTimer`. -/
theorem on_release_preserves (cfg : Config) (key : String) (role now : Nat)
    (s : EngineState) :
    (on_release cfg key role now s).repeatTimer = s.repeatTimer
    ∧ (on_release cfg key role now s).repeaton = s.repeaton
    ∧ (on_release cfg key role now s).previousCharacter = s.previousCharacter
    ∧ (on_release cfg key role now s).inputDisabled = s.inputDisabled := by
  unfold on_release
  dsimp only
  split
  · exact ⟨rfl, rfl, rfl, rfl⟩
  · split_ifs <;> simp [addDit, addDah]

/-- `step` on a press event is `on_press`. -/
theorem step_press (cfg : Config) (layout : List LayoutItem) (s : EngineState)
    (key : String) (role now : Nat) :
    step cfg layout s (Event.press key role now)
      = on_press cfg layout key role now s := rfl

/-- `step` on a fast-repeat tick with a stopped fast timer does nothing. -/
theorem step_fastTick_none (cfg : Config) (layout : List LayoutItem)
    (s : EngineState) (h : s.fastTimer = none) :
    step cfg layout s Event.fastTick = (s, []) := by
  show (match s.fastTimer with
    | some role => repeat_key layout role s
    | none => (s, [])) = _
  rw [h]

/-- `step` on a fast-repeat tick replays `repeat_key` with the captured
role. -/
theorem step_fastTick_some (cfg : Config) (layout : List LayoutItem)
    (s : EngineState) (r : Nat) (h : s.fastTimer = some r) :
    step cfg layout s Event.fastTick = repeat_key layout r s := by
  show (match s.fastTimer with
    | some role => repeat_key layout role s
    | none => (s, [])) = _
  rw [h]

/-- `step` on a boundary-timer fire with the timer running finalizes. -/
theorem step_boundary_on (cfg : Config) (layout : List LayoutItem)
    (s : EngineState) (h : s.endCharacterTimer = true) :
    step cfg layout s Event.boundaryFire = endCharacter layout s := by
  show (if s.endCharacterTimer then endCharacter layout s else (s, [])) = _
  rw [h]
  rfl

/-- `step` on a boundary-timer fire with the timer stopped does nothing. -/
theorem step_boundary_off (cfg : Config) (layout : List LayoutItem)
    (s : EngineState) (h : s.endCharacterTimer = false) :
    step cfg layout s Event.boundaryFire = (s, []) := by
  show (if s.endCharacterTimer then endCharacter layout s else (s, [])) = _
  rw [h]
  rfl

/-- `step` on a sticky-repeat tick with the timer stopped does nothing. -/
theorem step_repeatTick_off (cfg : Config) (layout : List LayoutItem)
    (s : EngineState) (h : s.repeatTimer = false) :
    step cfg layout s Event.repeatTick = (s, []) := by
  show (if s.repeatTimer then _ else (s, [])) = _
  rw [h]
  rfl

/-- `step` on a sticky-repeat tick with the timer running re-resolves
`previousCharacter` through `handleMorseCode`. -/
theorem step_repeatTick_on (cfg : Config) (layout : List LayoutItem)
    (s : EngineState) (h : s.repeatTimer = true) :
    step cfg layout s Event.repeatTick
      = ((handleMorseCode layout s s.previousCharacter).1,
          match (handleMorseCode layout s s.previousCharacter).2 with
          | some a => [Out.dispatched a]
          | none => []) := by
  show (if s.repeatTimer then _ else (s, [])) = _
  rw [h]
  rfl

/-! ### Concrete fixtures used by witnesses and counterexamples -/

/-- A OneKey configuration with the default timings
(`maxDitTime = 350`, `minLetterPause = 1000`). -/
def cfgOne : Config := ⟨Mode.one, 350, 1000, false⟩

/-- A TwoKey configuration with fast-repeat (`fastMorseMode`) enabled. -/
def cfgTwo : Config := ⟨Mode.two, 350, 1000, true⟩

/-- A ThreeKey configuration. -/
def cfgThree : Config := ⟨Mode.three, 350, 1000, false⟩

/-- An abstract layout action with no engine-visible effect. -/
def tagE : ActTag := ActTag.other "E"

/-! ### C1 -/

/-- C1: in OneKey mode, a press at `t0` followed by the release at `t1`
appends a dit (`1`) exactly when the measured duration `t1 - t0` is strictly
below `maxDitTime` and a dah (`2`) otherwise; in particular a duration equal
to `maxDitTime` classifies as a dah. -/
theorem C1_oneKey_duration_classification (cfg : Config)
    (layout : List LayoutItem) (key : String) (role : Nat) (t0 t1 : Nat)
    (s : EngineState) (hmode : cfg.mode = Mode.one) (hkey : key ≠ "P")
    (hdis : s.inputDisabled = false) (hopen : s.lastKeyDownTime = none) :
    (step cfg layout
        (step cfg layout s (Event.press key role t0)).1
        (Event.release key role t1)).1.currentCharacter
      = s.currentCharacter ++ [if t1 - t0 < cfg.maxDitTime then 1 else 2]
    ∧ (t1 - t0 = cfg.maxDitTime →
      (step cfg layout
          (step cfg layout s (Event.press key role t0)).1
          (Event.release key role t1)).1.currentCharacter
        = s.currentCharacter ++ [2]) := by
  have hpress : (step cfg layout s (Event.press key role t0)).1
      = { s with repeaton := false, repeatTimer := false,
                 lastKeyDownTime := some t0 } := by
    show (on_press cfg layout key role t0 s).1 = _
    unfold on_press
    dsimp only
    rw [if_neg hkey, if_neg (by simp [hdis]), if_neg (by simp [hopen]),
      if_neg (by simp [hmode]), if_neg (by simp [hmode])]
  have hrel : ∀ s' : EngineState, s'.lastKeyDownTime = some t0 →
      (on_release cfg key role t1 s').currentCharacter
        = s'.currentCharacter ++ [if t1 - t0 < cfg.maxDitTime then 1 else 2] := by
    intro s' hs'
    unfold on_release
    rw [hs']
    dsimp only
    rw [if_pos hmode, if_pos (Or.inl hmode)]
    split <;> simp [addDit, addDah]
  constructor
  · rw [show (step cfg layout (step cfg layout s (Event.press key role t0)).1
        (Event.release key role t1)).1
      = on_release cfg key role t1 (step cfg layout s (Event.press key role t0)).1
      from rfl]
    rw [hpress, hrel _ rfl]
  · intro heq
    rw [show (step cfg layout (step cfg layout s (Event.press key role t0)).1
        (Event.release key role t1)).1
      = on_release cfg key role t1 (step cfg layout s (Event.press key role t0)).1
      from rfl]
    rw [hpress, hrel _ rfl, heq, if_neg (lt_irrefl _)]

/-- C1 witness: with the default `maxDitTime = 350`, pressing at 0 ms and
releasing at exactly 350 ms yields a dah. -/
theorem C1_witness :
    (step cfgOne []
        (step cfgOne [] initState (Event.press "space" 0 0)).1
        (Event.release "space" 0 350)).1.currentCharacter = [2] := by
  have h := (C1_oneKey_duration_classification cfgOne [] "space" 0 0 350
    initState rfl (by decide) rfl rfl).2 rfl
  rw [h]; rfl

/-! ### C2 -/

/-- C2 counterexample: the resolver's rendering of a one-dit buffer is the
digit string `"1"`, not `"."`; a layout whose entry code is `"."` is never
matched by `handleMorseCode` on that buffer, while the digit code `"1"` is.
The `'.'/'-'` rendering exists only in the display layer (`codetocode`). -/
theorem C2_counterexample :
    specRenderDitDah [1] = "." ∧ morse_code_of [1] = "1"
    ∧ morse_code_of [1] ≠ specRenderDitDah [1]
    ∧ (handleMorseCode [⟨".", some tagE⟩] initState [1]).2 = none
    ∧ (handleMorseCode [⟨"1", some tagE⟩] initState [1]).2 = some tagE
    ∧ codetocode (morse_code_of [1, 2]) = ".-" := by
  refine ⟨rfl, rfl, by decide, ?_, ?_, by decide⟩
  · unfold handleMorseCode
    decide
  · unfold handleMorseCode
    decide

/-- C2 (amended): at finalization the resolver renders the buffer as the
digit string `'1'` per dit and `'2'` per dah and performs an exact-match
lookup of that string against the active layout's (digit-encoded) entry
codes; an action is dispatched only when some entry's code equals the
full rendered buffer. -/
theorem C2_amended_digit_exact_match (layout : List LayoutItem)
    (s : EngineState) (character : List Nat) :
    (∀ a, (handleMorseCode layout s character).2 = some a →
        ∃ it ∈ layout, it.code = morse_code_of character ∧ it.action = some a)
    ∧ ((∀ it ∈ layout, it.code ≠ morse_code_of character) →
        (handleMorseCode layout s character).2 = none) :=
  handleMorseCode_lookup layout s character

/-- C2 witness: a layout whose only code is `"2"` does not match the
rendered one-dit buffer `"1"`; nothing is dispatched. -/
theorem C2_amended_witness :
    (handleMorseCode [⟨"2", some tagE⟩] initState [1]).2 = none :=
  (C2_amended_digit_exact_match [⟨"2", some tagE⟩] initState [1]).2 (by decide)

/-! ### C4 -/

/-- C4: when the rendered buffer matches no entry of the layout and the
sticky-repeat flag is down (every key press clears it), finalization
dispatches nothing, clears the code buffer, leaves the boundary timer
stopped and does not start the sticky-repeat timer — the engine is back to
`Idle`. -/
theorem C4_resolution_miss (layout : List LayoutItem) (s : EngineState)
    (hmiss : ∀ it ∈ layout, it.code ≠ morse_code_of s.currentCharacter)
    (hrep : s.repeaton = false) :
    (∀ a, Out.dispatched a ∉ (endCharacter layout s).2)
    ∧ (endCharacter layout s).1.currentCharacter = []
    ∧ (endCharacter layout s).1.endCharacterTimer = false
    ∧ (endCharacter layout s).1.repeatTimer = s.repeatTimer
    ∧ (endCharacter layout s).1.repeaton = false := by
  have hnone : (handleMorseCode layout { s with endCharacterTimer := false }
      s.currentCharacter).2 = none :=
    (handleMorseCode_lookup layout { s with endCharacterTimer := false }
      s.currentCharacter).2 hmiss
  have hstate := handleMorseCode_none_state layout
    { s with endCharacterTimer := false } s.currentCharacter hnone
  unfold endCharacter
  dsimp only
  rw [hstate, hnone]
  simp [hrep]

/-- C4 witness: finalizing the buffer `[1]` against a layout whose only
code is `"2"` dispatches nothing and clears the buffer. -/
theorem C4_witness :
    (endCharacter [⟨"2", some tagE⟩]
        { initState with currentCharacter := [1] }).1.currentCharacter = [] :=
  (C4_resolution_miss [⟨"2", some tagE⟩]
    { initState with currentCharacter := [1] } (by decide) rfl).2.1

/-! ### C5 -/

/-- The engine state of C5's counterexample: empty code buffer, sticky
repeat off, and a previously completed one-dit code on record. -/
def s5 : EngineState := { initState with previousCharacter := [1] }

/-- C5 counterexample: finalizing with an empty code buffer is not free of
engine-state changes — with sticky repeat off, `endCharacter` overwrites the
last-completed-code snapshot `previousCharacter` with the empty buffer. -/
theorem C5_counterexample :
    s5.currentCharacter = [] ∧ s5.previousCharacter = [1]
    ∧ (endCharacter [] s5).1.previousCharacter = []
    ∧ (endCharacter [] s5).1.previousCharacter ≠ s5.previousCharacter := by
  refine ⟨rfl, rfl, ?_, ?_⟩ <;> (unfold endCharacter handleMorseCode; decide)

/-- C5 (amended): finalizing an empty buffer — by boundary timer or by a
Tertiary `ForceEndCharacter` press, both of which run `endCharacter` —
dispatches no action and does not fail, and the buffer stays empty; but it
is not a state no-op: the boundary timer is stopped, and when the repeat
flag is down the `previousCharacter` snapshot is overwritten with the empty
buffer (when it is up with a non-empty snapshot, the sticky-repeat timer is
started). -/
theorem C5_amended_empty_finalize (layout : List LayoutItem) (s : EngineState)
    (hempty : s.currentCharacter = []) :
    (∀ a, Out.dispatched a ∉ (endCharacter layout s).2)
    ∧ (endCharacter layout s).1.currentCharacter = []
    ∧ (endCharacter layout s).1.repeaton = s.repeaton
    ∧ (endCharacter layout s).1.previousCharacter
        = (if s.repeaton then s.previousCharacter else [])
    ∧ (endCharacter layout s).1.repeatTimer
        = (if s.repeaton ∧ s.previousCharacter ≠ [] then true else s.repeatTimer)
    ∧ (endCharacter layout s).1.endCharacterTimer = false := by
  unfold endCharacter handleMorseCode
  dsimp only
  rw [hempty]
  rw [if_pos (show morse_code_of [] = "" from rfl)]
  dsimp only
  by_cases hon : s.repeaton
  · rw [if_pos hon]
    by_cases hprev : s.previousCharacter ≠ []
    · rw [if_pos hprev]
      simp [hon, hprev, hempty]
    · rw [if_neg hprev]
      simp [hon, hprev, hempty]
  · rw [if_neg hon]
    simp [hon, hempty]

/-- C5 witness: at the concrete state `s5` the amended description yields
an untouched empty buffer whose finalization rewrites the snapshot to `[]`. -/
theorem C5_amended_witness :
    (endCharacter [] s5).1.previousCharacter = [] :=
  ((C5_amended_empty_finalize [] s5 rfl).2.2.2.1).trans (by decide)

/-! ### C7 -/

/-- The number of fast-repeat timer callbacks during a hold: the timer is
started at the press and fires every `interval` ms; the release at `hold` ms
stops it, so the ticks are the multiples of `interval` strictly before
`hold`. -/
def fastTicksWhileHeld (interval hold : Nat) : Nat := (hold - 1) / interval

/-- Scenario E's event trace: Primary (`role 0`) pressed at 0 ms, the fast
timer ticking at 100 ms intervals, and the release at 500 ms. -/
def c7Events : List Event :=
  Event.press "space" 0 0 ::
    (List.replicate (fastTicksWhileHeld 100 500) Event.fastTick
      ++ [Event.release "space" 0 500])

/-- C7: with fast-repeat enabled in TwoKey mode, holding Primary for 500 ms
with the 100 ms repeat interval appends exactly 5 dits (`1`) to the code
buffer: one at the press and one per tick at 100..400 ms. -/
theorem C7_fast_repeat_five_dits :
    (run cfgTwo [] initState c7Events).1.currentCharacter
      = List.replicate 5 1 := by
  decide

/-! ### C10 -/

/-- C10: the debounce guard `if self.lastKeyDownTime is not None: return` is
shared by all roles — any press arriving while any press is open (of
whatever role) only clears the sticky-repeat flag and timer: no symbol is
appended, no new press start time is recorded, no fast-repeat timer is
armed, and nothing is dispatched. -/
theorem C10_shared_open_press_guard (cfg : Config) (layout : List LayoutItem)
    (key : String) (role now : Nat) (s : EngineState)
    (hopen : s.lastKeyDownTime.isSome = true) :
    step cfg layout s (Event.press key role now)
      = ({ s with repeaton := false, repeatTimer := false }, []) := by
  show on_press cfg layout key role now s = _
  unfold on_press
  dsimp only
  by_cases hP : key = "P"
  · rw [if_pos hP]
  · rw [if_neg hP]
    by_cases hd : s.inputDisabled
    · rw [if_pos hd]
    · rw [if_neg hd, if_pos hopen]

/-- C10 witness: a Secondary press at 9 ms while the Primary press from 7 ms
is still open is ignored apart from the sticky-repeat reset. -/
theorem C10_witness :
    step cfgTwo [] { initState with lastKeyDownTime := some 7 }
        (Event.press "enter" 1 9)
      = ({ initState with
            lastKeyDownTime := some 7
            repeaton := false
            repeatTimer := false }, []) :=
  C10_shared_open_press_guard cfgTwo [] "enter" 1 9
    { initState with lastKeyDownTime := some 7 } rfl

/-! ### C3 -/

/-- C3: in ThreeKey mode the boundary (inactivity) timer is never started —
it stays off across every event, so `boundaryFire` can never finalize — and
any finalization is triggered by a Tertiary (role 2) press, either directly
or through the fast-repeat timer that a still-open Tertiary press armed. -/
theorem C3_threeKey_no_timeout (cfg : Config) (layout : List LayoutItem)
    (s : EngineState) (e : Event)
    (hmode : cfg.mode = Mode.three) (htimer : s.endCharacterTimer = false) :
    (step cfg layout s e).1.endCharacterTimer = false
    ∧ (Out.finalized ∈ (step cfg layout s e).2 →
        (∃ key now, e = Event.press key 2 now)
        ∨ (e = Event.fastTick ∧ s.fastTimer = some 2)) := by
  cases e with
  | press key role now =>
    have hmain :
        (on_press cfg layout key role now s).1.endCharacterTimer = false
        ∧ (Out.finalized ∈ (on_press cfg layout key role now s).2 →
            role = 2) := by
      unfold on_press
      dsimp only
      split_ifs with h1 h2 h3 h4 h5 h6 h7
      · exact ⟨htimer, by simp⟩
      · exact ⟨htimer, by simp⟩
      · exact ⟨htimer, by simp⟩
      all_goals
        first
        | (rcases role with _ | _ | _ | r
           · exact ⟨htimer, by simp⟩
           · exact ⟨htimer, by simp⟩
           · exact ⟨(endCharacter_fields layout _).2.1, fun _ => rfl⟩
           · exact ⟨htimer, by simp⟩)
        | exact ⟨htimer, by simp⟩
    exact ⟨hmain.1, fun hf => Or.inl ⟨key, now, by rw [hmain.2 hf]⟩⟩
  | release key role now =>
    refine ⟨?_, fun hf => absurd hf (by simp [step])⟩
    show (on_release cfg key role now s).endCharacterTimer = false
    unfold on_release
    dsimp only
    split
    · exact htimer
    · rw [if_neg (by simp [hmode]), if_neg (by simp [hmode])]
      exact htimer
  | fastTick =>
    cases hft : s.fastTimer with
    | none =>
      rw [step_fastTick_none cfg layout s hft]
      exact ⟨htimer, by simp⟩
    | some role =>
      rw [step_fastTick_some cfg layout s role hft]
      rcases role with _ | _ | _ | r
      · exact ⟨htimer, by simp [repeat_key]⟩
      · exact ⟨htimer, by simp [repeat_key]⟩
      · exact ⟨(endCharacter_fields layout s).2.1,
          fun _ => Or.inr ⟨rfl, rfl⟩⟩
      · exact ⟨htimer, by simp [repeat_key]⟩
  | boundaryFire =>
    rw [step_boundary_off cfg layout s htimer]
    exact ⟨htimer, by simp⟩
  | repeatTick =>
    by_cases hr : s.repeatTimer
    · rw [step_repeatTick_on cfg layout s hr]
      refine ⟨(handleMorseCode_preserves layout s s.previousCharacter).2.2.1.trans
        htimer, ?_⟩
      rcases (handleMorseCode layout s s.previousCharacter).2 with _ | a <;> simp
    · rw [step_repeatTick_off cfg layout s (by simpa using hr)]
      exact ⟨htimer, by simp⟩

/-- C3 witness: a Primary press in ThreeKey mode from the initial state
leaves the boundary timer off. -/
theorem C3_witness :
    (step cfgThree [] initState (Event.press "space" 0 5)).1.endCharacterTimer
      = false :=
  (C3_threeKey_no_timeout cfgThree [] initState (Event.press "space" 0 5)
    rfl rfl).1

/-! ### C6 -/

/-- C6: sticky-repeat lifecycle.  (1) Every press that does not itself
finalize a character leaves the repeat flag cleared and the sticky-repeat
timer cancelled (the clear/cancel are `on_press`'s first statements).
(2) The sticky-repeat timer only ever starts at a finalization, and then the
(post-dispatch) repeat flag is up and the non-empty previous code is the
snapshot that the timer will re-dispatch. -/
theorem C6_sticky_repeat_lifecycle (cfg : Config) (layout : List LayoutItem) :
    (∀ (s : EngineState) (key : String) (role now : Nat),
        Out.finalized ∉ (step cfg layout s (Event.press key role now)).2 →
          (step cfg layout s (Event.press key role now)).1.repeaton = false
          ∧ (step cfg layout s (Event.press key role now)).1.repeatTimer
              = false)
    ∧ (∀ (s : EngineState) (e : Event), s.repeatTimer = false →
        (step cfg layout s e).1.repeatTimer = true →
          Out.finalized ∈ (step cfg layout s e).2
          ∧ (step cfg layout s e).1.repeaton = true
          ∧ (step cfg layout s e).1.previousCharacter ≠ []) := by
  constructor
  · intro s key role now
    rw [step_press cfg layout s key role now]
    unfold on_press
    dsimp only
    split_ifs with h1 h2 h3 h4 h5 h6 h7
    · exact fun _ => ⟨rfl, rfl⟩
    · exact fun _ => ⟨rfl, rfl⟩
    · exact fun _ => ⟨rfl, rfl⟩
    all_goals
      first
      | (rcases role with _ | _ | _ | r
         · exact fun _ => ⟨rfl, rfl⟩
         · exact fun _ => ⟨rfl, rfl⟩
         · exact fun hnot =>
             absurd (endCharacter_fields layout _).2.2.2.2.2 hnot
         · exact fun _ => ⟨rfl, rfl⟩)
      | exact fun _ => ⟨rfl, rfl⟩
  · intro s e h0
    cases e with
    | press key role now =>
      rw [step_press cfg layout s key role now]
      unfold on_press
      dsimp only
      split_ifs with hp1 hp2 hp3 hp4 hp5 hp6 hp7
      · intro h1; exact absurd h1 (by simp)
      · intro h1; exact absurd h1 (by simp)
      · intro h1; exact absurd h1 (by simp)
      all_goals
        first
        | (rcases role with _ | _ | _ | r
           · intro h1; exact absurd h1 (by simp [addDit])
           · intro h1; exact absurd h1 (by simp [addDah])
           · intro h1
             exact ⟨(endCharacter_fields layout _).2.2.2.2.2,
               endCharacter_armed_repeat layout _ rfl h1⟩
           · intro h1; exact absurd h1 (by simp))
        | (intro h1; exact absurd h1 (by simp))
    | release key role now =>
      intro h1
      rw [show (step cfg layout s (Event.release key role now)).1
          = on_release cfg key role now s from rfl,
        (on_release_preserves cfg key role now s).1] at h1
      simp [h0] at h1
    | fastTick =>
      cases hft : s.fastTimer with
      | none =>
        rw [step_fastTick_none cfg layout s hft]
        intro h1; simp [h0] at h1
      | some role =>
        rw [step_fastTick_some cfg layout s role hft]
        rcases role with _ | _ | _ | r
        · intro h1; simp [repeat_key, addDit, h0] at h1
        · intro h1; simp [repeat_key, addDah, h0] at h1
        · intro h1
          exact ⟨(endCharacter_fields layout s).2.2.2.2.2,
            endCharacter_armed_repeat layout s h0 h1⟩
        · intro h1; simp [repeat_key, h0] at h1
    | boundaryFire =>
      by_cases hb : s.endCharacterTimer
      · rw [step_boundary_on cfg layout s hb]
        intro h1
        exact ⟨(endCharacter_fields layout s).2.2.2.2.2,
          endCharacter_armed_repeat layout s h0 h1⟩
      · rw [step_boundary_off cfg layout s (by simpa using hb)]
        intro h1; simp [h0] at h1
    | repeatTick =>
      rw [step_repeatTick_off cfg layout s h0]
      intro h1; simp [h0] at h1

/-- C6 witness: a Primary press in TwoKey mode from the initial state (not a
finalizing press) clears the repeat flag and the sticky-repeat timer. -/
theorem C6_witness :
    (step cfgTwo [] initState (Event.press "space" 0 0)).1.repeaton = false
    ∧ (step cfgTwo [] initState (Event.press "space" 0 0)).1.repeatTimer
        = false :=
  (C6_sticky_repeat_lifecycle cfgTwo []).1 initState "space" 0 0 (by decide)

/-! ### C8 -/

/-- Scenario D's abbreviation table `{"brb": "be right back"}`. -/
def abbrs8 : List (List Char × List Char) :=
  [("brb".toList, "be right back".toList)]

/-- The first three keystrokes of scenario D: "b", "r", "b". -/
def keys8three : List (List Char × Option Char) :=
  [("b".toList, some 'b'), ("r".toList, some 'r'), ("b".toList, some 'b')]

/-- Scenario D's full keystroke sequence: "b", "r", "b", then space. -/
def keys8 : List (List Char × Option Char) :=
  keys8three ++ [("space".toList, some ' ')]

/-- The synthesized stream the code actually produces on scenario D's four
keystrokes: the expansion fires at the third "b" (echo, three backspaces,
the expansion's characters, a space), and the subsequent space keystroke
echoes and then synthesizes three spurious backspaces from the stale
`keyLength` before `press_and_release(None)` aborts the action. -/
def c8Actual : List (List Char) :=
  ["b".toList, "r".toList, "b".toList]
    ++ List.replicate 3 "backspace".toList
    ++ "be right back".toList.map (fun c => [c])
    ++ ["space".toList, "space".toList]
    ++ List.replicate 3 "backspace".toList

/-- The stream claim C8 describes: the four echoes first, then — triggered
by the space — three backspaces, the expansion's characters and a trailing
space. -/
def c8Claimed : List (List Char) :=
  ["b".toList, "r".toList, "b".toList, "space".toList]
    ++ List.replicate 3 "backspace".toList
    ++ "be right back".toList.map (fun c => [c])
    ++ ["space".toList]

/-- C8 counterexample: on the keystroke sequence "b", "r", "b", space the
synthesized stream is `c8Actual` — the expansion precedes the space echo
and the space itself yields three spurious backspaces — and not the
claimed stream in which the trigger space precedes the expansion. -/
theorem C8_counterexample :
    (run_keystrokes abbrs8 initTypeState keys8).2 = c8Actual
    ∧ (run_keystrokes abbrs8 initTypeState keys8).2 ≠ c8Claimed := by
  decide

/-- C8 (amended): there is no abbreviation-trigger key — the expansion fires
as soon as the typed text's last word matches the table.  After just "b",
"r", "b" (no space), the synthesized stream is already the three echoes
followed by 3 backspaces, the characters of "be right back" and a trailing
space. -/
theorem C8_amended_immediate_expansion :
    (run_keystrokes abbrs8 initTypeState keys8three).2
      = ["b".toList, "r".toList, "b".toList]
          ++ List.replicate 3 "backspace".toList
          ++ "be right back".toList.map (fun c => [c])
          ++ ["space".toList] := by
  decide

/-! ### C9 -/

/-- C9 counterexample: with buffer `"he"` and prediction list `["hello"]`,
selecting slot 0 sets the buffer to `"llo "` — the trailing word is removed
and only the prediction's remainder is appended — whereas the claim's
full-replacement reading would give `"hello "`. -/
theorem C9_counterexample :
    prediction_select_perform ["hello".toList] 0 "he".toList
        = ("llo ".toList, "llo ".toList)
    ∧ ("llo ".toList : List Char) ≠ "hello ".toList := by
  decide

/-- `getD` of an append at an offset past the first part. -/
theorem getD_append_len {α : Type} (l l' : List α) (n : Nat) (d : α) :
    (l ++ l').getD (l.length + n) d = l'.getD n d := by
  induction l with
  | nil => simp
  | cons x xs ih =>
    have h : (x :: xs).length + n = (xs.length + n) + 1 := by
      simp [Nat.succ_add]
    rw [h, List.cons_append, List.getD_cons_succ]
    exact ih

/-- `take` of an append at an offset past the first part. -/
theorem take_append_len {α : Type} (l l' : List α) (n : Nat) :
    (l ++ l').take (l.length + n) = l ++ l'.take n := by
  induction l with
  | nil => simp
  | cons x xs ih =>
    have h : (x :: xs).length + n = (xs.length + n) + 1 := by
      simp [Nat.succ_add]
    rw [h, List.cons_append, List.take_succ_cons, ih]
    rfl

/-- `strip_search` returns the least index satisfying `stripCond` when one
exists within the fuel. -/
theorem strip_search_finds (text : List Char) (j : Nat)
    (hj : stripCond text j = true) :
    ∀ (i fuel : Nat), i ≤ j → j < i + fuel →
      (∀ m, i ≤ m → m < j → stripCond text m = false) →
      strip_search text i fuel = some j := by
  intro i fuel
  induction fuel generalizing i with
  | zero => omega
  | succ fuel ih =>
    intro hij hlt hbelow
    unfold strip_search
    by_cases h : stripCond text i
    · have : i = j := by
        by_contra hne
        have : i < j := lt_of_le_of_ne hij hne
        rw [hbelow i le_rfl this] at h
        cases h
      rw [if_pos h, this]
    · rw [if_neg h]
      have hne : i ≠ j := fun he => h (he ▸ hj)
      exact ih (i + 1) (by omega) (by omega)
        (fun m hm hmj => hbelow m (by omega) hmj)

/-- On a buffer `t ++ c :: w` with `c` whitespace and `w` whitespace-free,
the boundary loop's condition fails below index `w.length` and holds there
(when within the prediction's length). -/
theorem stripCond_decomposed (t w : List Char) (c : Char)
    (hc : isWS c = true) (hw : ∀ x ∈ w, isWS x = false) :
    (∀ m, m < w.length → stripCond (t ++ c :: w) m = false)
    ∧ stripCond (t ++ c :: w) w.length = true := by
  have hlen : (t ++ c :: w).length = t.length + 1 + w.length := by
    simp [Nat.add_comm, Nat.add_assoc, Nat.add_left_comm]
  constructor
  · intro m hm
    unfold stripCond
    have h1 : ¬ m = (t ++ c :: w).length := by omega
    have h2 : m < (t ++ c :: w).length := by omega
    have hidx : (t ++ c :: w).length - m - 1
        = t.length + 1 + (w.length - m - 1) := by omega
    have hget : (t ++ c :: w).getD ((t ++ c :: w).length - m - 1) ' '
        = w.getD (w.length - m - 1) ' ' := by
      rw [hidx]
      have he : t ++ c :: w = (t ++ [c]) ++ w := by simp
      rw [he]
      have hl : t.length + 1 + (w.length - m - 1)
          = (t ++ [c]).length + (w.length - m - 1) := by simp
      rw [hl, getD_append_len]
    have hmem : w.getD (w.length - m - 1) ' ' ∈ w := by
      have hlt : w.length - m - 1 < w.length := by omega
      rw [List.getD_eq_getElem w ' ' hlt]
      exact List.getElem_mem hlt
    rw [decide_eq_false h1, decide_eq_true h2, hget, hw _ hmem]
    rfl
  · unfold stripCond
    have h1 : ¬ w.length = (t ++ c :: w).length := by omega
    have h2 : w.length < (t ++ c :: w).length := by omega
    have hidx : (t ++ c :: w).length - w.length - 1 = t.length := by omega
    have hget : (t ++ c :: w).getD ((t ++ c :: w).length - w.length - 1) ' '
        = c := by
      rw [hidx]
      have he : t.length = t.length + 0 := rfl
      rw [he, getD_append_len]
      rfl
    rw [decide_eq_false h1, decide_eq_true h2, hget, hc]
    rfl

/-- C9 (amended): out of range, `PredictionSelectLayoutAction.perform` does
nothing.  In range, on a buffer `t ++ c :: w` whose trailing word `w`
(whitespace-free, preceded by whitespace `c`) is shorter than the selected
prediction, the buffer keeps everything through the whitespace and gains
only the prediction's remainder beyond `w.length` plus a trailing space —
not the full prediction — and exactly those delta characters are
synthesized. -/
theorem C9_amended_delta_replacement :
    (∀ (predictions : List (List Char)) (target : Int) (text : List Char),
        ¬ (0 ≤ target ∧ target < (predictions.length : Int)) →
        prediction_select_perform predictions target text = (text, []))
    ∧ (∀ (t w pred : List Char) (c : Char),
        isWS c = true → (∀ x ∈ w, isWS x = false) → w.length < pred.length →
        prediction_select_perform [pred] 0 (t ++ c :: w)
          = (t ++ c :: (pred.drop w.length ++ [' ']),
             pred.drop w.length ++ [' '])) := by
  constructor
  · intro predictions target text h
    unfold prediction_select_perform
    rw [if_neg h]
  · intro t w pred c hc hw hwp
    have hcond := stripCond_decomposed t w c hc hw
    have hsearch : strip_search (t ++ c :: w) 0 pred.length = some w.length :=
      strip_search_finds (t ++ c :: w) w.length hcond.2 0 pred.length
        (Nat.zero_le _) (by omega) (fun m _ hm => hcond.1 m hm)
    unfold prediction_select_perform
    rw [if_pos (by constructor <;> simp)]
    dsimp only
    have hpred : ([pred].getD (Int.toNat 0) []) = pred := rfl
    rw [hpred, hsearch]
    simp only [Option.getD_some]
    have hlen : (t ++ c :: w).length - w.length = t.length + 1 := by
      simp only [List.length_append, List.length_cons]
      omega
    have htake : (t ++ c :: w).take ((t ++ c :: w).length - w.length)
        = t ++ [c] := by
      rw [hlen]
      have : t ++ c :: w = (t ++ [c]) ++ w := by simp
      rw [this]
      have hl : t.length + 1 = (t ++ [c]).length + 0 := by simp
      rw [hl, take_append_len]
      simp
    rw [htake]
    simp

/-- C9 witness: on buffer `" he"` (a space then the in-progress word "he")
with prediction `"hello"` at slot 0, the buffer becomes `" llo "` and the
synthesized characters are exactly `"llo "`. -/
theorem C9_witness :
    prediction_select_perform ["hello".toList] 0 (' ' :: "he".toList)
      = (' ' :: "llo ".toList, "llo ".toList) := by
  have h := (C9_amended_delta_replacement).2 [] "he".toList "hello".toList ' '
    (by decide) (by decide) (by decide)
  exact h.trans (by decide)

end MorseWriter
